import Mathlib

/-!
Shallow embedding of the prisoners dilemma tournament program
(src/main.rs, src/strategies.rs) and verification of its specification.

Rust `i32` scores and payoffs are modelled as `Int` (all values reached in
the claims stay far below 2^31, and no claim concerns overflow); `usize`
player indices as `Nat`; `Vec<[Move; 2]>` histories as `List Round` with
`push` appending at the end, so `Vec::last` is `List.getLast?`.
-/

/-- The two-valued move enumeration from `enum Move` in main.rs. -/
inductive Move where
  | Cooperate
  | Defect
deriving DecidableEq, Repr

/-- One round `[Move; 2]` — the pair of moves, indexed by player slot. -/
abbrev Round : Type := Move × Move

/-- Array indexing `round[i]` from the source; the source only ever indexes
with `opponent_inx ∈ {0, 1}`. -/
def Round.get (r : Round) (i : Nat) : Move :=
  if i = 0 then r.1 else r.2

/-- Histories: `type History = Vec<[Move; 2]>`; `Vec::push` appends at the end. -/
abbrev History : Type := List Round

/-- Payoff pairs: `type Payoff = (i32, i32)`. -/
abbrev Payoff : Type := Int × Int

/-- A strategy is its `play(hist, hist_inx) -> Move` decision function
(the `Strategy` trait object of the source, minus the name). -/
abbrev Strategy : Type := History → Nat → Move

/-- Strategy `AlwaysCooperate::play` from main.rs. -/
def alwaysCooperate : Strategy := fun _ _ => Move.Cooperate

/-- Strategy `AlwaysDefect::play` from main.rs. -/
def alwaysDefect : Strategy := fun _ _ => Move.Defect

/-- Strategy `TitForTat::play` from main.rs: opponent index is `if inx == 1 { 0 } else { 1 }`;
cooperate on empty history, else repeat the move the opponent made in the last round. -/
def titForTat : Strategy := fun hist inx =>
  let opponent_inx := if inx = 1 then 0 else 1
  match hist.getLast? with
  | some round => round.get opponent_inx
  | none => Move.Cooperate

/-- Strategy `TwoTitsForTat::play` from main.rs: look at `hist.iter().rev().take(2)`
(the most recent round first, then the second most recent); defect only when
that slice has two rounds and the opponent defected in both. -/
def twoTitsForTat : Strategy := fun hist inx =>
  let opponent_inx := if inx = 1 then 0 else 1
  match (List.reverse hist).take 2 with
  | [round1, round2] =>
      if round1.get opponent_inx = Move.Defect ∧ round2.get opponent_inx = Move.Defect then
        Move.Defect
      else
        Move.Cooperate
  | _ => Move.Cooperate

/-- Payoff table `PrisonerDilemmaGame::calculate_payoff` from main.rs. -/
def calculate_payoff : Move → Move → Payoff
  | Move.Cooperate, Move.Cooperate => (2, 2)
  | Move.Cooperate, Move.Defect => (0, 3)
  | Move.Defect, Move.Cooperate => (3, 0)
  | Move.Defect, Move.Defect => (1, 1)

/-- The mutable part of `PrisonerDilemmaGame`: the running scores of the
two players and the history (the strategies are passed separately, and
`iterations` is a parameter of `play`). -/
structure GameState where
  score1 : Int
  score2 : Int
  history : History
deriving DecidableEq, Repr

/-- Fresh game state: `Player::new` zeroes each score, `PrisonerDilemmaGame::new`
starts with an empty history. -/
def initialState : GameState := ⟨0, 0, []⟩

/-- Round step `PrisonerDilemmaGame::play_round`: both moves are computed from
`self.history` before anything is mutated, then scores are paid, then the
round is pushed onto the history. -/
def play_round (sA sB : Strategy) (g : GameState) : GameState :=
  let m1 := sA g.history 0
  let m2 := sB g.history 1
  let pay := calculate_payoff m1 m2
  { score1 := g.score1 + pay.1
    score2 := g.score2 + pay.2
    history := g.history ++ [(m1, m2)] }

/-- The loop body of `PrisonerDilemmaGame::play`, run `n` times. -/
def playN (sA sB : Strategy) : Nat → GameState → GameState
  | 0, g => g
  | n + 1, g => playN sA sB n (play_round sA sB g)

/-- Game loop `PrisonerDilemmaGame::play`: `for _ in 0..self.iterations` runs the round
`iterations` times when `iterations > 0` and zero times otherwise (a Rust
`i32` range `0..n` with `n ≤ 0` is empty), i.e. `iterations.toNat` times. -/
def play (sA sB : Strategy) (iterations : Int) : GameState :=
  playN sA sB iterations.toNat initialState

/-- Claim C2 — for all four move combinations, `calculate_payoff` returns
exactly the fixed table values: (C,C) ↦ (2,2), (C,D) ↦ (0,3), (D,C) ↦ (3,0),
(D,D) ↦ (1,1). -/
theorem c2_payoff_table :
    calculate_payoff Move.Cooperate Move.Cooperate = (2, 2) ∧
    calculate_payoff Move.Cooperate Move.Defect = (0, 3) ∧
    calculate_payoff Move.Defect Move.Cooperate = (3, 0) ∧
    calculate_payoff Move.Defect Move.Defect = (1, 1) := by
  refine ⟨rfl, rfl, rfl, rfl⟩

/-- Claim C9 — the payoff function is symmetric under swapping the players:
`calculate_payoff m1 m2` equals `calculate_payoff m2 m1` with its components
swapped. -/
theorem c9_payoff_symmetric (m1 m2 : Move) :
    calculate_payoff m1 m2 = Prod.swap (calculate_payoff m2 m1) := by
  cases m1 <;> cases m2 <;> rfl

/-- Spec-side reading of TwoTitsForTat (for the refinement claim C4):
`Cooperate` unless the history has at least two rounds and the opponent
(slot `1 - playerIndex`) played `Defect` in both of the two most recent
rounds. The most recent round is the last element of the history, the second
most recent the last element of `dropLast`. -/
def twoTitsForTatSpec (hist : History) (inx : Nat) : Move :=
  match hist.getLast?, hist.dropLast.getLast? with
  | some mostRecent, some secondMostRecent =>
      if mostRecent.get (1 - inx) = Move.Defect ∧
         secondMostRecent.get (1 - inx) = Move.Defect then
        Move.Defect
      else
        Move.Cooperate
  | _, _ => Move.Cooperate

/-- Claim C3 — for every history and player index in {0, 1}, TitForTat
returns `Cooperate` on an empty history and otherwise the move the opponent
(slot `1 - playerIndex`) played in the most recent round. -/
theorem c3_titForTat (hist : History) (inx : Nat) (h : inx ≤ 1) :
    (hist = [] → titForTat hist inx = Move.Cooperate) ∧
    (∀ r, hist.getLast? = some r → titForTat hist inx = r.get (1 - inx)) := by
  constructor
  · intro he
    subst he
    rfl
  · intro r hr
    unfold titForTat
    rw [hr]
    interval_cases inx <;> rfl

/-- Witness for C3: after one round in which player 0 defected and player 1
cooperated, TitForTat as player 1 defects (the last move of the opponent). -/
theorem c3_titForTat_witness :
    titForTat [(Move.Defect, Move.Cooperate)] 1 = Move.Defect := by
  have h := (c3_titForTat [(Move.Defect, Move.Cooperate)] 1 (by decide)).2
    (Move.Defect, Move.Cooperate) rfl
  exact h.trans (by decide)

/-- Claim C4 — for every history and player index in {0, 1}, TwoTitsForTat
defects exactly when the history has at least two rounds and the opponent
defected in both of the two most recent rounds, and cooperates otherwise:
the source decision function equals the reading of the spec. -/
theorem c4_twoTitsForTat (hist : History) (inx : Nat) (h : inx ≤ 1) :
    twoTitsForTat hist inx = twoTitsForTatSpec hist inx := by
  have hop : (if inx = 1 then 0 else 1) = 1 - inx := by
    interval_cases inx <;> rfl
  induction hist using List.reverseRecOn with
  | nil => rfl
  | append_singleton l a _ =>
    induction l using List.reverseRecOn with
    | nil =>
      unfold twoTitsForTat twoTitsForTatSpec
      simp
    | append_singleton m b _ =>
      unfold twoTitsForTat twoTitsForTatSpec
      have htake : (List.reverse ((m ++ [b]) ++ [a])).take 2 = [a, b] := by
        simp [List.reverse_append]
      rw [htake, List.getLast?_concat, List.dropLast_concat, List.getLast?_concat, hop]

/-- Witness for C4: with two consecutive defections by player 0,
TwoTitsForTat as player 1 defects, matching the spec reading. -/
theorem c4_twoTitsForTat_witness :
    twoTitsForTat [(Move.Defect, Move.Cooperate), (Move.Defect, Move.Cooperate)] 1 =
      twoTitsForTatSpec [(Move.Defect, Move.Cooperate), (Move.Defect, Move.Cooperate)] 1 ∧
    twoTitsForTat [(Move.Defect, Move.Cooperate), (Move.Defect, Move.Cooperate)] 1 =
      Move.Defect :=
  ⟨c4_twoTitsForTat _ 1 (by decide), by decide⟩

/-- The history after a round is the pre-round history with one round
appended, both of its moves functions of the pre-round history only. -/
theorem play_round_history (sA sB : Strategy) (g : GameState) :
    (play_round sA sB g).history =
      g.history ++ [(sA g.history 0, sB g.history 1)] := rfl

/-- The score of player 1 grows by the first payoff component each round. -/
theorem play_round_score1 (sA sB : Strategy) (g : GameState) :
    (play_round sA sB g).score1 =
      g.score1 + (calculate_payoff (sA g.history 0) (sB g.history 1)).1 := rfl

/-- The score of player 2 grows by the second payoff component each round. -/
theorem play_round_score2 (sA sB : Strategy) (g : GameState) :
    (play_round sA sB g).score2 =
      g.score2 + (calculate_payoff (sA g.history 0) (sB g.history 1)).2 := rfl

/-- Iterating the round one more time applies `play_round` last. -/
theorem playN_succ_last (sA sB : Strategy) (n : Nat) (g : GameState) :
    playN sA sB (n + 1) g = play_round sA sB (playN sA sB n g) := by
  induction n generalizing g with
  | zero => rfl
  | succ n ih =>
    show playN sA sB (n + 1) (play_round sA sB g) =
      play_round sA sB (playN sA sB (n + 1) g)
    rw [ih]
    rfl

/-- Claim C5 — round semantics invariant: after `n` rounds the history has
length `n`, each score is the sum of the payoffs of that player over the recorded
rounds, and round `k` (0-based) of the history is exactly the pair of moves
the two strategies chose from the history of the first `k` rounds — both
from the same pre-round snapshot, neither observing the current-round
move of the other. -/
theorem c5_round_semantics (sA sB : Strategy) (n : Nat) :
    (playN sA sB n initialState).history.length = n ∧
    (playN sA sB n initialState).score1 =
      ((playN sA sB n initialState).history.map
        (fun r => (calculate_payoff r.1 r.2).1)).sum ∧
    (playN sA sB n initialState).score2 =
      ((playN sA sB n initialState).history.map
        (fun r => (calculate_payoff r.1 r.2).2)).sum ∧
    ∀ k, k < n →
      (playN sA sB n initialState).history[k]? =
        some (sA ((playN sA sB n initialState).history.take k) 0,
              sB ((playN sA sB n initialState).history.take k) 1) := by
  induction n with
  | zero =>
    exact ⟨rfl, rfl, rfl, fun k hk => absurd hk (Nat.not_lt_zero k)⟩
  | succ n ih =>
    obtain ⟨ihlen, ihs1, ihs2, ihround⟩ := ih
    rw [playN_succ_last]
    refine ⟨?_, ?_, ?_, ?_⟩
    · rw [play_round_history, List.length_append, ihlen]
      rfl
    · rw [play_round_score1, play_round_history, List.map_append,
        List.sum_append, ihs1]
      simp
    · rw [play_round_score2, play_round_history, List.map_append,
        List.sum_append, ihs2]
      simp
    · intro k hk
      rw [play_round_history]
      rcases Nat.lt_succ_iff_lt_or_eq.mp hk with hk' | hk'
      · have hklen : k < (playN sA sB n initialState).history.length := by
          rw [ihlen]; exact hk'
        rw [List.getElem?_append_left hklen,
          List.take_append_of_le_length (Nat.le_of_lt hklen)]
        exact ihround k hk'
      · subst hk'
        set h := (playN sA sB k initialState).history with hh
        clear_value h
        have hlen : h.length = k := ihlen
        subst hlen
        rw [List.take_left]
        exact List.getElem?_concat_length _ _

/-- Instrumented round: same state update as `play_round`, plus a counter of
strategy invocations — the source round calls the strategy of each player exactly
once. -/
def play_round_counted (sA sB : Strategy) (p : GameState × Nat) : GameState × Nat :=
  (play_round sA sB p.1, p.2 + 2)

/-- Instrumented `play` loop body run `n` times. -/
def playN_counted (sA sB : Strategy) : Nat → GameState × Nat → GameState × Nat
  | 0, p => p
  | n + 1, p => playN_counted sA sB n (play_round_counted sA sB p)

/-- Instrumented `PrisonerDilemmaGame::play` starting from a fresh game and
zero recorded strategy invocations. -/
def play_counted (sA sB : Strategy) (iterations : Int) : GameState × Nat :=
  playN_counted sA sB iterations.toNat (initialState, 0)

/-- Claim C7 — for every pair of strategies, a game with zero iterations
ends with scores (0, 0), an empty history, and zero strategy invocations. -/
theorem c7_zero_iterations (sA sB : Strategy) :
    play sA sB 0 = initialState ∧
    play_counted sA sB 0 = (initialState, 0) ∧
    initialState = ⟨0, 0, []⟩ :=
  ⟨rfl, rfl, rfl⟩

/-- Claim C10 — the iteration count is an `i32` at the public interface
(modelled by the lower bound), and any negative value runs zero rounds: the
game terminates with scores (0, 0), empty history and no strategy
invocation, exactly as with zero iterations. -/
theorem c10_negative_iterations (sA sB : Strategy) (n : Int)
    (_hlow : -(2 ^ 31) ≤ n) (hneg : n < 0) :
    play sA sB n = play sA sB 0 ∧
    play sA sB n = initialState ∧
    play_counted sA sB n = (initialState, 0) := by
  have h0 : n.toNat = 0 := Int.toNat_of_nonpos (le_of_lt hneg)
  unfold play play_counted
  rw [h0]
  exact ⟨rfl, rfl, rfl⟩

/-- Witness for C10 at iteration count -5. -/
theorem c10_negative_iterations_witness :
    play alwaysCooperate alwaysDefect (-5) = initialState :=
  (c10_negative_iterations alwaysCooperate alwaysDefect (-5)
    (by decide) (by decide)).2.1

/-- The submission order of `main`: `for s1 in strategies { for s2 in
strategies { ... } }` enumerates every ordered index pair `(i, j)` with
`i, j < n`, self-pairings included. -/
def tournamentPairings (n : Nat) : List (Nat × Nat) :=
  List.range n ×ˢ List.range n

/-- The unit of work of one worker for pairing `p`: run the game for the two
selected strategies and report the final score pair tagged with its
originating pairing (the sent `(game.p1, game.p2)` message carries the
strategies and scores). Index lookups are total via `getD`; every submitted
pairing has in-range indices. -/
def workerResult (strategies : List Strategy) (iterations : Int) (p : Nat × Nat) :
    (Nat × Nat) × (Int × Int) :=
  (p,
    ((play (strategies.getD p.1 alwaysCooperate) (strategies.getD p.2 alwaysCooperate)
        iterations).score1,
     (play (strategies.getD p.1 alwaysCooperate) (strategies.getD p.2 alwaysCooperate)
        iterations).score2))

/-- The tournament scheduler of `main`, modelled sequentially: all N²
pairings are submitted to the pool, each worker runs one game to completion
and sends its result over the channel, and the collection loop receives
exactly N² results before anything is printed. Arrival order across workers
is unconstrained and irrelevant to the collected multiset, so the model
collects in submission order. The thread pool cannot run any job with zero
workers (`ThreadPool::new(0)` aborts), modelled by `none`; the claims only
concern `workerCount ≥ 1`. -/
def runTournament (strategies : List Strategy) (iterations : Int) (workerCount : Nat) :
    Option (List ((Nat × Nat) × (Int × Int))) :=
  if workerCount = 0 then none
  else some ((tournamentPairings strategies.length).map (workerResult strategies iterations))

/-- Claim C1 — for every non-empty strategy list, worker count ≥ 1 and
iteration count ≥ 0, the tournament completes and collects exactly N²
results, exactly one per ordered index pair (i, j) with self-pairings
included: none lost, none duplicated, and the full collection is in hand
when the scheduler returns. -/
theorem c1_scheduler_completeness (strategies : List Strategy) (iterations : Int)
    (workerCount : Nat) (_hne : strategies ≠ []) (hw : 1 ≤ workerCount)
    (_hit : 0 ≤ iterations) :
    ∃ results, runTournament strategies iterations workerCount = some results ∧
      results.length = strategies.length * strategies.length ∧
      results.map Prod.fst = tournamentPairings strategies.length ∧
      (results.map Prod.fst).Nodup ∧
      ∀ i j, (i, j) ∈ results.map Prod.fst ↔
        (i < strategies.length ∧ j < strategies.length) := by
  have hw0 : ¬ workerCount = 0 := by omega
  have hfst : (((tournamentPairings strategies.length).map
      (workerResult strategies iterations)).map Prod.fst) =
      tournamentPairings strategies.length := by
    rw [List.map_map]
    have hcomp : Prod.fst ∘ workerResult strategies iterations = id := rfl
    rw [hcomp, List.map_id]
  have hnd : (tournamentPairings strategies.length).Nodup :=
    (List.nodup_range _).product (List.nodup_range _)
  refine ⟨(tournamentPairings strategies.length).map (workerResult strategies iterations),
    ?_, ?_, hfst, ?_, ?_⟩
  · unfold runTournament
    rw [if_neg hw0]
  · rw [List.length_map]
    unfold tournamentPairings
    rw [List.length_product, List.length_range]
  · rw [hfst]
    exact hnd
  · intro i j
    rw [hfst]
    unfold tournamentPairings
    rw [List.mem_product, List.mem_range, List.mem_range]

/-- Witness for C1: two strategies, one worker, one iteration — the
scheduler returns four collected results. -/
theorem c1_scheduler_completeness_witness :
    ∃ results, runTournament [alwaysCooperate, alwaysDefect] 1 1 = some results ∧
      results.length = 4 := by
  obtain ⟨r, h1, h2, -, -, -⟩ :=
    c1_scheduler_completeness [alwaysCooperate, alwaysDefect] 1 1
      (List.cons_ne_nil _ _) (by decide) (by decide)
  exact ⟨r, h1, h2.trans rfl⟩

/-- A possibly-failing strategy: `none` models a `Strategy::play`
implementation that panics instead of producing a move. -/
abbrev FStrategy : Type := History → Nat → Option Move

/-- A total strategy never fails. -/
def liftStrategy (s : Strategy) : FStrategy := fun hist inx => some (s hist inx)

/-- A deterministically failing strategy, as injected by the
isolation property of the spec. -/
def failingStrategy : FStrategy := fun _ _ => none

/-- Round play when a strategy may fail: the move of player 1 is requested
first; a panic unwinds immediately, so a failure of either call aborts the
round and the game with no state recorded. -/
def play_roundF (sA sB : FStrategy) (g : GameState) : Option GameState :=
  match sA g.history 0 with
  | none => none
  | some m1 =>
    match sB g.history 1 with
    | none => none
    | some m2 =>
      some ⟨g.score1 + (calculate_payoff m1 m2).1,
            g.score2 + (calculate_payoff m1 m2).2,
            g.history ++ [(m1, m2)]⟩

/-- The fallible game loop: a failed round aborts the remaining
iterations. -/
def playNF (sA sB : FStrategy) : Nat → GameState → Option GameState
  | 0, g => some g
  | n + 1, g =>
    match play_roundF sA sB g with
    | none => none
    | some g2 => playNF sA sB n g2

/-- The fallible game from a fresh state, `i32` iteration semantics as in
`play`. -/
def playF (sA sB : FStrategy) (iterations : Int) : Option GameState :=
  playNF sA sB iterations.toNat initialState

/-- The outcome of one worker for pairing `p` when strategies may fail: `none`
means the worker panicked before reaching `tx.send`, so no message for this
pairing ever enters the channel. -/
def workerResultF (strategies : List FStrategy) (iterations : Int) (p : Nat × Nat) :
    (Nat × Nat) × Option (Int × Int) :=
  (p,
    (playF (strategies.getD p.1 (liftStrategy alwaysCooperate))
       (strategies.getD p.2 (liftStrategy alwaysCooperate)) iterations).map
      (fun g => (g.score1, g.score2)))

/-- The scheduler of `main` under possible per-pairing failure. The
collection loop runs `rx.recv().unwrap()` exactly N² times; the main
thread keeps its own `tx` clone alive throughout, so the channel never
disconnects and a `recv` for a message that was never sent blocks forever.
Hence the loop finishes — returning every result — only when all N² workers
sent; if any worker died before sending, the scheduler hangs and reports
nothing, modelled by `none`. -/
def runTournamentF (strategies : List FStrategy) (iterations : Int)
    (workerCount : Nat) : Option (List ((Nat × Nat) × Option (Int × Int))) :=
  if workerCount = 0 then none
  else if ((tournamentPairings strategies.length).map
      (workerResultF strategies iterations)).all (fun r => r.2.isSome)
  then some ((tournamentPairings strategies.length).map
      (workerResultF strategies iterations))
  else none

/-- Counterexample to C6 as stated: with one sound strategy and one
deterministically failing strategy, the scheduler collects nothing at all
(`none` — it blocks forever on the missing message), even though the sound
game of the sound self-pairing succeeds; the other N² − 1 results are not collected
and no failure is surfaced. -/
theorem c6_counterexample :
    runTournamentF [liftStrategy alwaysCooperate, failingStrategy] 1 1 = none ∧
    playF (liftStrategy alwaysCooperate) (liftStrategy alwaysCooperate) 1 ≠ none := by
  exact ⟨rfl, by decide⟩

/-- Claim C6 as amended — if the simulation of any single pairing fails, its
worker never sends, the collection loop blocks forever, and the scheduler
reports no results at all: the results of the other pairings are lost with it and
the failure is never surfaced. -/
theorem c6_failure_blocks_collection (strategies : List FStrategy)
    (iterations : Int) (workerCount : Nat) (hw : 1 ≤ workerCount) (p : Nat × Nat)
    (hp : p ∈ tournamentPairings strategies.length)
    (hfail : (workerResultF strategies iterations p).2 = none) :
    runTournamentF strategies iterations workerCount = none := by
  have hw0 : ¬ workerCount = 0 := by omega
  unfold runTournamentF
  rw [if_neg hw0]
  have hall : ((tournamentPairings strategies.length).map
      (workerResultF strategies iterations)).all (fun r => r.2.isSome) = false := by
    refine List.all_eq_false.mpr
      ⟨workerResultF strategies iterations p, List.mem_map_of_mem _ hp, ?_⟩
    rw [hfail]
    decide
  rw [hall]
  rfl

/-- Witness for the amended C6: three workers, two iterations, one failing
strategy — the scheduler reports nothing. -/
theorem c6_failure_blocks_collection_witness :
    runTournamentF [liftStrategy alwaysCooperate, failingStrategy] 2 3 = none :=
  c6_failure_blocks_collection
    [liftStrategy alwaysCooperate, failingStrategy] 2 3 (by decide) (1, 1)
    (by decide) (by decide)

/-- The five selectable strategies, by identity (the `name()` of the built
`Arc<dyn Strategy>` values). -/
inductive StrategyId where
  | AlwaysCooperate
  | AlwaysDefect
  | TitForTat
  | Random
  | TwoTitsForTat
deriving DecidableEq, Repr

/-- The `match` arms of `parse_strategies` on a trimmed, lowercased token:
the five known names, anything else unknown (`none`, warned and skipped). -/
def strategyOfName (s : String) : Option StrategyId :=
  if s = "always-cooperate" then some StrategyId.AlwaysCooperate
  else if s = "always-defect" then some StrategyId.AlwaysDefect
  else if s = "tit-for-tat" then some StrategyId.TitForTat
  else if s = "random" then some StrategyId.Random
  else if s = "two-tits-for-tat" then some StrategyId.TwoTitsForTat
  else none

/-- The full default strategy set built when no valid strategy is selected
(and also when no `--strategies` flag is given). -/
def defaultStrategies : List StrategyId :=
  [StrategyId.AlwaysCooperate, StrategyId.AlwaysDefect, StrategyId.TitForTat,
    StrategyId.Random, StrategyId.TwoTitsForTat]

/-- Selection parsing `parse_strategies` from main.rs: split the selection string on commas,
trim and lowercase each token, push each known strategy in order (unknown
tokens only produce a warning), and fall back to the full default set when
nothing valid was pushed. -/
def parse_strategies (strategy_str : String) : List StrategyId :=
  let strategies := (strategy_str.split (· == ',')).foldl
    (fun acc strat =>
      match strategyOfName strat.trim.toLower with
      | some k => acc ++ [k]
      | none => acc)
    []
  if strategies.isEmpty then defaultStrategies else strategies

/-- Accumulating known names by pushing is filtering the token list through
the name table. -/
theorem parse_push_eq_filterMap :
    ∀ (l : List String) (acc : List StrategyId),
      l.foldl
        (fun acc strat =>
          match strategyOfName strat.trim.toLower with
          | some k => acc ++ [k]
          | none => acc)
        acc = acc ++ l.filterMap (fun t => strategyOfName t.trim.toLower) := by
  intro l
  induction l with
  | nil => intro acc; simp
  | cons a l ih =>
    intro acc
    rw [List.foldl_cons, List.filterMap_cons]
    cases h : strategyOfName a.trim.toLower with
    | none => simp [h, ih]
    | some b => simp [h, ih]

/-- Claim C8 — parsing a strategy-selection string keeps exactly the known
names, in the order given, duplicates allowed, skipping every unknown name;
when no valid name remains it falls back to the full default set of exactly
the five strategies in order AlwaysCooperate, AlwaysDefect, TitForTat,
Random, TwoTitsForTat; the result is never empty. -/
theorem c8_parse_strategies (strategy_str : String) :
    parse_strategies strategy_str =
      (if ((strategy_str.split (· == ',')).filterMap
            (fun t => strategyOfName t.trim.toLower)) = []
       then defaultStrategies
       else (strategy_str.split (· == ',')).filterMap
            (fun t => strategyOfName t.trim.toLower)) ∧
    parse_strategies strategy_str ≠ [] ∧
    defaultStrategies =
      [StrategyId.AlwaysCooperate, StrategyId.AlwaysDefect, StrategyId.TitForTat,
        StrategyId.Random, StrategyId.TwoTitsForTat] ∧
    defaultStrategies.length = 5 := by
  have hchar : parse_strategies strategy_str =
      (if ((strategy_str.split (· == ',')).filterMap
            (fun t => strategyOfName t.trim.toLower)) = []
       then defaultStrategies
       else (strategy_str.split (· == ',')).filterMap
            (fun t => strategyOfName t.trim.toLower)) := by
    simp only [parse_strategies, parse_push_eq_filterMap, List.nil_append]
    by_cases h : ((strategy_str.split (· == ',')).filterMap
        (fun t => strategyOfName t.trim.toLower)) = []
    · rw [if_pos h, h]
      rfl
    · rw [if_neg h, if_neg]
      simp [List.isEmpty_iff, h]
  refine ⟨hchar, ?_, rfl, rfl⟩
  rw [hchar]
  by_cases h : ((strategy_str.split (· == ',')).filterMap
      (fun t => strategyOfName t.trim.toLower)) = []
  · rw [if_pos h]
    decide
  · rw [if_neg h]
    exact h
